import Mathlib

/-!
Verification development for the SPARTA ambiCroPaC module
(`src/audio_plugins/_SPARTA_ambiCroPaC/src/ambi_cropac/src/ambi_cropac_internal.h`).

The header under `src/` provides the compile-time constants, the
`codecPars` / `ambi_cropac_data` struct layouts and their documenting
comments.  The behavioural parts of the module (codec initialiser,
rotator, CroPaC analyzer, covariance-domain mixer) live in source files
that are not part of `src/`; those parts are modelled from the spec, and
each such definition carries a doc comment saying so.
-/

namespace AmbiCropac

/-! ## Constants from ambi_cropac_internal.h (lines 64-70) -/

/-- `#define HOP_SIZE ( 128 )` (STFT hop size = nBands). -/
def HOP_SIZE : Nat := 128

/-- `#define HYBRID_BANDS ( HOP_SIZE + 5 )` (hybrid mode incurs an additional 5 bands). -/
def HYBRID_BANDS : Nat := HOP_SIZE + 5

/-- `#define NUM_EARS ( 2 )`. -/
def NUM_EARS : Nat := 2

/-- `#define SH_ORDER ( 1 )` (first-order). -/
def SH_ORDER : Nat := 1

/-- `#define NUM_SH_SIGNALS ( (SH_ORDER+1)*(SH_ORDER+1) )`. -/
def NUM_SH_SIGNALS : Nat := (SH_ORDER + 1) * (SH_ORDER + 1)

/-- `#define POST_GAIN_DB ( -9.0f )`. -/
def POST_GAIN_DB : ℝ := -9

/-! ## Array extents of the struct fields, mirroring the declarations.

Each list records, in order, the declared extents of one fixed-size
array field of `codecPars` / `ambi_cropac_data`.  `TIME_SLOTS` is
`FRAME_SIZE / HOP_SIZE` where `FRAME_SIZE` comes from a header not under
`src/`, so the time-slot extent is a parameter here. -/

/-- `float_complex M_dec[HYBRID_BANDS][NUM_EARS][NUM_SH_SIGNALS]` (line 86). -/
def M_dec_dims : List Nat := [HYBRID_BANDS, NUM_EARS, NUM_SH_SIGNALS]

/-- `float_complex SHframeTF[HYBRID_BANDS][NUM_SH_SIGNALS][TIME_SLOTS]` (line 107). -/
def SHframeTF_dims (timeSlots : Nat) : List Nat := [HYBRID_BANDS, NUM_SH_SIGNALS, timeSlots]

/-- `float_complex SHframeTF_rot[HYBRID_BANDS][NUM_SH_SIGNALS][TIME_SLOTS]` (line 108). -/
def SHframeTF_rot_dims (timeSlots : Nat) : List Nat := [HYBRID_BANDS, NUM_SH_SIGNALS, timeSlots]

/-- `float_complex binframeTF[HYBRID_BANDS][NUM_EARS][TIME_SLOTS]` (line 109). -/
def binframeTF_dims (timeSlots : Nat) : List Nat := [HYBRID_BANDS, NUM_EARS, timeSlots]

/-- `float freqVector[HYBRID_BANDS]` (line 116). -/
def freqVector_dims : List Nat := [HYBRID_BANDS]

/-- `float EQ[HYBRID_BANDS]` (line 125). -/
def EQ_dims : List Nat := [HYBRID_BANDS]

/-- `float balance[HYBRID_BANDS]` (line 126). -/
def balance_dims : List Nat := [HYBRID_BANDS]

/-- `float decBalance[HYBRID_BANDS]` (line 127). -/
def decBalance_dims : List Nat := [HYBRID_BANDS]

/-! ## Per-band blend controls (lines 126-127).

The header comments give the semantic anchor points of the two per-band
blend controls:
`balance[]`    — `0: only diffuse, 1: equal, 2: only directional`;
`decBalance[]` — `0: only linear, 0.5: equal, 1: only parametric`. -/

/-- Semantic anchor points of the `balance` control. -/
inductive BalanceAnchor
  | onlyDiffuse
  | equalWeighting
  | onlyDirectional
deriving DecidableEq, Fintype

/-- Numeric value of each `balance` anchor, per the line-126 comment. -/
def balanceAnchorValue : BalanceAnchor → ℚ
  | .onlyDiffuse => 0
  | .equalWeighting => 1
  | .onlyDirectional => 2

/-- Semantic anchor points of the `decBalance` control. -/
inductive DecBalanceAnchor
  | onlyLinear
  | equalBlendPoint
  | onlyParametric
deriving DecidableEq, Fintype

/-- Numeric value of each `decBalance` anchor, per the line-127 comment. -/
def decBalanceAnchorValue : DecBalanceAnchor → ℚ
  | .onlyLinear => 0
  | .equalBlendPoint => 1/2
  | .onlyParametric => 1

/-- Lower end of the `balance` range (the `only diffuse` extreme). -/
def balanceLo : ℚ := balanceAnchorValue .onlyDiffuse

/-- Upper end of the `balance` range (the `only directional` extreme). -/
def balanceHi : ℚ := balanceAnchorValue .onlyDirectional

/-- Lower end of the `decBalance` range (the `only linear` extreme). -/
def decBalanceLo : ℚ := decBalanceAnchorValue .onlyLinear

/-- Upper end of the `decBalance` range (the `only parametric` extreme). -/
def decBalanceHi : ℚ := decBalanceAnchorValue .onlyParametric

/-! ## Codec initialiser state machine.

The header (line 122) documents the flag
`int reInitCodec; /* 0: no init required, 1: init required, 2: init in progress */`. -/

/-- The three states of the codec initialiser, as the spec names the
three documented integer values of `reInitCodec`. -/
inductive CodecInitState
  | Idle
  | RebuildRequested
  | RebuildInProgress
deriving DecidableEq, Fintype

/-- The integer code each state is stored as in `reInitCodec` (line 122):
0 = no init required, 1 = init required, 2 = init in progress. -/
def reInitCodecCode : CodecInitState → Nat
  | .Idle => 0
  | .RebuildRequested => 1
  | .RebuildInProgress => 2

/-- Events driving the codec initialiser. -/
inductive CodecInitEvent
  | configChange
  | workerStart
  | publishSuccess
deriving DecidableEq, Fintype

/-- Modelled from the spec: the transition function of the codec
initialiser (the `.c` implementation is not under `src/`).  Per spec
section 4.6: `Idle → RebuildRequested` on a configuration change,
`RebuildRequested → RebuildInProgress` when the rebuild worker picks up
the request, `RebuildInProgress → Idle` on successful publish; no other
transition occurs. -/
def codecInitStep : CodecInitState → CodecInitEvent → Option CodecInitState
  | .Idle, .configChange => some .RebuildRequested
  | .RebuildRequested, .workerStart => some .RebuildInProgress
  | .RebuildInProgress, .publishSuccess => some .Idle
  | _, _ => none

/-! ## Codec rebuild: failure handling and generation counter. -/

/-- The decode matrix `M_dec[HYBRID_BANDS][NUM_EARS][NUM_SH_SIGNALS]`
(line 86); `float_complex` entries are modelled as pairs of rationals. -/
def DecodeMatrix : Type :=
  Fin HYBRID_BANDS → Fin NUM_EARS → Fin NUM_SH_SIGNALS → ℚ × ℚ

/-- The all-zero decode matrix (used as a concrete sample value). -/
def zeroDecodeMatrix : DecodeMatrix := fun _ _ _ => (0, 0)

/-- Summary data of a loaded HRIR set (`codecPars` lines 90-94:
direction count, impulse length, source sample rate). -/
structure HrirSet where
  numDirs : Nat
  hrirLen : Nat
  hrirFs : Nat
deriving DecidableEq

/-- The ways loading a personalised (SOFA) HRIR set can fail, per spec
section 7: file missing, corrupt data, unsupported format. -/
inductive HrirLoadError
  | fileMissing
  | corruptData
  | unsupportedFormat
deriving DecidableEq

/-- Modelled from the spec: the default built-in HRIR set from
`ambi_cropac_database.h` (not under `src/`); only its presence matters
here. -/
def defaultHrirSet : HrirSet := ⟨1, 1, 48000⟩

/-- Modelled from the spec: one rebuild attempt of the codec parameters
(`ambi_cropac_initCodec`, whose `.c` body is not under `src/`).  `build`
is the decode-matrix builder collaborator, `prev` the previously
published matrix if any, `load` the outcome of loading the requested
HRIR set.  Per spec section 7, a load failure is reported and the
previously valid matrix is retained; with no previous matrix the module
falls back to the default HRIR set. -/
def rebuildCodec (build : HrirSet → DecodeMatrix) (prev : Option DecodeMatrix)
    (load : Except HrirLoadError HrirSet) :
    Option DecodeMatrix × Option HrirLoadError :=
  match load with
  | .ok s => (some (build s), none)
  | .error e =>
    match prev with
    | some m => (some m, some e)
    | none => (some (build defaultHrirSet), some e)

/-- State of the rebuild coordination: the latest request generation and
the currently published generation-tagged matrix. -/
structure RebuildSys where
  latestGen : Nat
  published : Option (Nat × DecodeMatrix)

/-- Modelled from the spec: a new configuration change increments the
generation counter (spec section 5). -/
def newRequest (s : RebuildSys) : RebuildSys :=
  { s with latestGen := s.latestGen + 1 }

/-- Modelled from the spec: a finishing rebuild tagged `gen` publishes
its matrix only when `gen` matches the latest request's generation;
otherwise the result is discarded and the state is untouched (spec
section 5). -/
def finishRebuild (s : RebuildSys) (gen : Nat) (m : DecodeMatrix) : RebuildSys :=
  if gen = s.latestGen then { s with published := some (gen, m) } else s

/-! ## Rotator (spec section 4.3; header lines 72-77 and 133-136).

The rotator's `.c` implementation is not under `src/`; the closed-form
first-order SH rotation it applies is modelled from the spec.  A
sub-band sample of the 4 SH channels is a vector `Fin 4 → ℝ` in ACN
ordering: channel 0 = W, 1 = Y, 2 = Z, 3 = X. -/

/-- The `DEG2RAD(x)` macro (header line 73): `x * PI / 180`. -/
noncomputable def DEG2RAD (x : ℝ) : ℝ := x * Real.pi / 180

/-- Modelled from the spec: first-order SH rotation about the z axis by
`a` radians (yaw); W and Z are untouched, the X/Y dipoles rotate. -/
noncomputable def rotZ (a : ℝ) (v : Fin 4 → ℝ) : Fin 4 → ℝ :=
  ![v 0,
    Real.cos a * v 1 + Real.sin a * v 3,
    v 2,
    -(Real.sin a) * v 1 + Real.cos a * v 3]

/-- Modelled from the spec: first-order SH rotation about the y axis by
`a` radians (pitch); W and Y are untouched, the Z/X dipoles rotate. -/
noncomputable def rotY (a : ℝ) (v : Fin 4 → ℝ) : Fin 4 → ℝ :=
  ![v 0,
    v 1,
    Real.cos a * v 2 - Real.sin a * v 3,
    Real.sin a * v 2 + Real.cos a * v 3]

/-- Modelled from the spec: first-order SH rotation about the x axis by
`a` radians (roll); W and X are untouched, the Y/Z dipoles rotate. -/
noncomputable def rotX (a : ℝ) (v : Fin 4 → ℝ) : Fin 4 → ℝ :=
  ![v 0,
    Real.cos a * v 1 - Real.sin a * v 2,
    Real.sin a * v 1 + Real.cos a * v 2,
    v 3]

/-- The effective rotation angle in radians for one axis: the angle in
degrees, optionally sign-flipped by its `bFlip` flag (header line 135),
converted by `DEG2RAD`. -/
noncomputable def effAngle (flip : Bool) (deg : ℝ) : ℝ :=
  DEG2RAD (if flip then -deg else deg)

/-- Modelled from the spec (section 4.3): the Rotator applied to one
first-order SH sub-band sample.  Each of yaw/pitch/roll (degrees) is
optionally sign-flipped, and the three axis rotations compose in the
order selected by `useRollPitchYawFlag` (header line 136): roll-pitch-yaw
when set, yaw-pitch-roll otherwise. -/
noncomputable def rotator (yaw pitch roll : ℝ)
    (bFlipYaw bFlipPitch bFlipRoll : Bool) (useRollPitchYawFlag : Bool)
    (v : Fin 4 → ℝ) : Fin 4 → ℝ :=
  if useRollPitchYawFlag then
    rotZ (effAngle bFlipYaw yaw)
      (rotY (effAngle bFlipPitch pitch) (rotX (effAngle bFlipRoll roll) v))
  else
    rotX (effAngle bFlipRoll roll)
      (rotY (effAngle bFlipPitch pitch) (rotZ (effAngle bFlipYaw yaw) v))

/-! ## CroPaC analyzer (spec section 4.4; header line 132). -/

/-- 2×2 covariance matrices of the binaural channel pair, over ℚ. -/
abbrev Cov2 := Matrix (Fin 2) (Fin 2) ℚ

/-- Modelled from the spec: exponential smoothing of the covariance
estimate with the user's averaging coefficient `covAvgCoeff` (header
line 132). -/
def covAvgSmooth (covAvgCoeff : ℚ) (prev inst : Cov2) : Cov2 :=
  covAvgCoeff • prev + (1 - covAvgCoeff) • inst

/-- Modelled from the spec: the threshold below which a band's estimated
energy counts as numerically negligible. -/
def energyEps : ℚ := 1 / 1000000000

/-- Modelled from the spec: the diffuse-field reference covariance (unit
total energy split evenly between the two channels, uncorrelated). -/
def diffuseRefCov : Cov2 := !![1/2, 0; 0, 1/2]

/-- Modelled from the spec (section 4.4): the covariance the analyzer
publishes for a band; when the estimated band energy (the trace of the
smoothed covariance) is numerically negligible, it falls back to the
diffuse-field reference covariance. -/
def analyzerCov (smoothed : Cov2) : Cov2 :=
  if Matrix.trace smoothed ≤ energyEps then diffuseRefCov else smoothed

/-- The quantity later normalization steps divide by: the total energy
(trace) of the analyzer's published covariance. -/
def normDenom (smoothed : Cov2) : ℚ := Matrix.trace (analyzerCov smoothed)

/-! ## Covariance-Domain Mixer (spec section 4.5; header lines 70, 126-127). -/

/-- Real 2×2 covariance matrices of the binaural pair. -/
abbrev CovR := Matrix (Fin 2) (Fin 2) ℝ

/-- Modelled from the spec: regularisation floor for the factorisation
of near-singular 2×2 covariance matrices (spec sections 4.5 and 7). -/
noncomputable def regEps : ℝ := 1 / 1000000000

/-- Modelled from the spec: regularised lower-triangular (Cholesky-type)
factor of a 2×2 covariance matrix.  Both pivots are floored at `regEps`,
so the factor is always invertible (spec: "regularizing any matrix
inversion or square-root-like decomposition against near-singular
inputs"). -/
noncomputable def cholFactor (C : CovR) : CovR :=
  !![Real.sqrt (max (C 0 0) regEps), 0;
     C 1 0 / Real.sqrt (max (C 0 0) regEps),
     Real.sqrt (max (C 1 1 - (C 1 0) ^ 2 / max (C 0 0) regEps) regEps)]

/-- Modelled from the spec: weight of the directionally-synthesised
covariance in the analyzer's target, from the coherence estimate (1 =
fully directional) and the per-band `balance` control (header line 126:
0 only diffuse, 1 equal, 2 only directional). -/
noncomputable def dirWeight (balance coherence : ℝ) : ℝ :=
  min balance 1 * coherence

/-- Modelled from the spec: weight of the diffuse-field reference
covariance in the analyzer's target. -/
noncomputable def difWeight (balance coherence : ℝ) : ℝ :=
  min (2 - balance) 1 * (1 - coherence)

/-- Modelled from the spec (section 4.4): the target binaural covariance
for one band — the diffuse-field reference covariance and the
directionally-synthesised covariance (given as unit-energy shapes
`Ddiff`, `Ddir`), weighted by the coherence estimate and the user
balance control, scaled by the band energy `E`. -/
noncomputable def targetCov (coherence balance E : ℝ) (Ddir Ddiff : CovR) : CovR :=
  (difWeight balance coherence * E) • Ddiff + (dirWeight balance coherence * E) • Ddir

/-- Modelled from the spec (section 4.5): the covariance the mixer aims
for — the linear-decode covariance `Cx` and the parametric target `Ct`
blended by the per-band `decBalance` control (header line 127: 0 only
linear, 0.5 equal, 1 only parametric). -/
noncomputable def blendedTarget (decBalance : ℝ) (Cx Ct : CovR) : CovR :=
  (1 - decBalance) • Cx + decBalance • Ct

/-- Modelled from the spec (section 4.5): the optimal mixing transform of
the covariance-matching optimization, mapping a factor of the
linear-decode covariance onto a factor of the blended target
covariance. -/
noncomputable def mixMatrix (decBalance : ℝ) (Cx Ct : CovR) : CovR :=
  cholFactor (blendedTarget decBalance Cx Ct) * (cholFactor Cx)⁻¹

/-- Modelled from the spec: the Covariance-Domain Mixer's per-band,
per-hop output sample pair — the mixing transform applied to the raw
linear-decode sample pair. -/
noncomputable def mixedSignal (decBalance : ℝ) (Cx Ct : CovR) (y : Fin 2 → ℝ) :
    Fin 2 → ℝ :=
  (mixMatrix decBalance Cx Ct).mulVec y

/-- The fully-linear extreme of the `decBalance` control (value 0,
header line 127: "0: only linear"). -/
noncomputable def decBalanceLinear : ℝ := 0

/-- The fully-diffuse extreme of the analyzer's coherence estimate
(spec section 4.4: coherence bounded to [0,1], 0 = fully diffuse). -/
noncomputable def coherenceDiffuse : ℝ := 0

/-! ## End-to-end energy (spec section 8; header line 70). -/

/-- The linear global post-gain: `POST_GAIN_DB` decibels. -/
noncomputable def postGain : ℝ := (10 : ℝ) ^ ((POST_GAIN_DB / 20 : ℝ))

/-- An impulse on SH channel `k`: 1 on channel `k`, 0 elsewhere. -/
noncomputable def impulseSH (k : Fin 4) : Fin 4 → ℝ := fun i => if i = k then 1 else 0

/-- Total energy of a sample vector. -/
noncomputable def vecEnergy {n : Nat} (v : Fin n → ℝ) : ℝ := ∑ i, v i ^ 2

/-- A 2×2 covariance is cleanly factorable when it is symmetric and both
pivots of its factorisation clear the regularisation floor (i.e. the
regularisation is inactive on it). -/
def CholExact (C : CovR) : Prop :=
  C 0 1 = C 1 0 ∧ regEps ≤ C 0 0 ∧ regEps ≤ C 1 1 - (C 1 0) ^ 2 / C 0 0

/-- Modelled from the spec: the mixer-stage output covariance for one
band — the linear-decode covariance conjugated by the mixing transform
(what the matched output's statistics are over the smoothing window). -/
noncomputable def mixerOutCov (decBalance : ℝ) (Cx Ct : CovR) : CovR :=
  mixMatrix decBalance Cx Ct * Cx * (mixMatrix decBalance Cx Ct).transpose

/-- Modelled from the spec: total two-ear output energy of one band
after the global post-gain of `POST_GAIN_DB` dB (header line 70). -/
noncomputable def outputEnergy (decBalance : ℝ) (Cx Ct : CovR) : ℝ :=
  postGain ^ (2 : ℕ) * Matrix.trace (mixerOutCov decBalance Cx Ct)

/-- A symmetric positive-semidefinite 2×2 shape: symmetric, nonnegative
diagonal, and off-diagonal dominated by the diagonal product (any real
covariance matrix satisfies this). -/
def PSD2 (C : CovR) : Prop :=
  C 0 1 = C 1 0 ∧ 0 ≤ C 0 0 ∧ 0 ≤ C 1 1 ∧ (C 1 0) ^ 2 ≤ C 0 0 * C 1 1

/-- Modelled from the spec: the per-hop covariance of the linear-decode
output in the impulse scenario — the outer product of the decode output
sample with itself.  It is rank one (determinant 0), so the mixer's
regularisation path is exercised, not assumed away. -/
noncomputable def impulseDecCov (A : Matrix (Fin 2) (Fin 4) ℝ) (k : Fin 4) : CovR :=
  Matrix.vecMulVec (A.mulVec (impulseSH k)) (A.mulVec (impulseSH k))

/-- Modelled from the spec: the total two-ear output energy of the
impulse scenario — the Covariance-Domain Mixer applied to the impulse's
linear-decode output, with that output's own rank-one covariance and the
analyzer target built from the same band energy, scaled by the squared
global post-gain of `POST_GAIN_DB` dB (header line 70). -/
noncomputable def impulsePipelineEnergy (A : Matrix (Fin 2) (Fin 4) ℝ) (k : Fin 4)
    (coherence balance decBalance : ℝ) (Ddir Ddiff : CovR) : ℝ :=
  postGain ^ (2:ℕ) * vecEnergy (mixedSignal decBalance (impulseDecCov A k)
    (targetCov coherence balance (Matrix.trace (impulseDecCov A k)) Ddir Ddiff)
    (A.mulVec (impulseSH k)))

/-! ## Theorems -/

/-- Claim C5: the decode matrix `M_dec` has fixed dimensions
bands × 2 ears × 4 spherical-harmonic channels, where 4 equals
(SH order + 1)² for the fixed first order; all extents are compile-time
constants of the header. -/
theorem decode_matrix_fixed_dims :
    M_dec_dims = [HYBRID_BANDS, 2, 4] ∧
    NUM_EARS = 2 ∧ SH_ORDER = 1 ∧
    NUM_SH_SIGNALS = (SH_ORDER + 1) ^ 2 ∧ NUM_SH_SIGNALS = 4 := by
  decide

/-- Claim C9: the hybrid band count is `HOP_SIZE + 5 = 133`, and every
per-band array of `codecPars` / `ambi_cropac_data` — the decode matrix,
the three complex sub-band buffers, the frequency vector, and the
per-band EQ/balance/decBalance user parameters — has this same band
dimension as its first extent. -/
theorem hybrid_bands_shared_dimension :
    HYBRID_BANDS = HOP_SIZE + 5 ∧ HOP_SIZE = 128 ∧ HYBRID_BANDS = 133 ∧
    ∀ timeSlots : Nat,
      M_dec_dims.head? = some HYBRID_BANDS ∧
      (SHframeTF_dims timeSlots).head? = some HYBRID_BANDS ∧
      (SHframeTF_rot_dims timeSlots).head? = some HYBRID_BANDS ∧
      (binframeTF_dims timeSlots).head? = some HYBRID_BANDS ∧
      freqVector_dims = [HYBRID_BANDS] ∧
      EQ_dims = [HYBRID_BANDS] ∧
      balance_dims = [HYBRID_BANDS] ∧
      decBalance_dims = [HYBRID_BANDS] :=
  ⟨rfl, rfl, rfl, fun _ => ⟨rfl, rfl, rfl, rfl, rfl, rfl, rfl, rfl⟩⟩

/-- Claim C10: the two per-band blend controls use different numeric
ranges: `balance` spans [0, 2] with 0 = only diffuse, 1 = equal and
2 = only directional, while `decBalance` spans [0, 1] with 0 = only
linear, 0.5 = equal and 1 = only parametric. -/
theorem blend_controls_distinct_ranges :
    balanceAnchorValue .onlyDiffuse = 0 ∧
    balanceAnchorValue .equalWeighting = 1 ∧
    balanceAnchorValue .onlyDirectional = 2 ∧
    decBalanceAnchorValue .onlyLinear = 0 ∧
    decBalanceAnchorValue .equalBlendPoint = 1/2 ∧
    decBalanceAnchorValue .onlyParametric = 1 ∧
    (∀ a, balanceLo ≤ balanceAnchorValue a ∧ balanceAnchorValue a ≤ balanceHi) ∧
    (∀ a, decBalanceLo ≤ decBalanceAnchorValue a ∧
      decBalanceAnchorValue a ≤ decBalanceHi) ∧
    balanceLo = 0 ∧ balanceHi = 2 ∧ decBalanceLo = 0 ∧ decBalanceHi = 1 ∧
    balanceHi ≠ decBalanceHi := by
  refine ⟨rfl, rfl, rfl, rfl, rfl, rfl, ?_, ?_, rfl, rfl, rfl, rfl, ?_⟩
  · intro a
    cases a <;> norm_num [balanceAnchorValue, balanceLo, balanceHi]
  · intro a
    cases a <;> norm_num [decBalanceAnchorValue, decBalanceLo, decBalanceHi]
  · norm_num [balanceHi, decBalanceHi, balanceAnchorValue, decBalanceAnchorValue]

/-- Claim C2: the codec initialiser's state takes exactly the three
documented values (codes 0/1/2 of `reInitCodec`), and every transition
follows the cycle Idle → RebuildRequested (configuration change) →
RebuildInProgress (worker start) → Idle (successful publish). -/
theorem codec_initializer_states_and_cycle :
    Fintype.card CodecInitState = 3 ∧
    reInitCodecCode .Idle = 0 ∧
    reInitCodecCode .RebuildRequested = 1 ∧
    reInitCodecCode .RebuildInProgress = 2 ∧
    ∀ s e s', codecInitStep s e = some s' →
      (s = .Idle ∧ e = .configChange ∧ s' = .RebuildRequested) ∨
      (s = .RebuildRequested ∧ e = .workerStart ∧ s' = .RebuildInProgress) ∨
      (s = .RebuildInProgress ∧ e = .publishSuccess ∧ s' = .Idle) := by
  decide

/-- Witness for C2: the configuration-change transition out of `Idle`
lands in `RebuildRequested`, via the claim's theorem. -/
theorem codec_initializer_states_and_cycle_witness :
    (CodecInitState.Idle = .Idle ∧ CodecInitEvent.configChange = .configChange ∧
      CodecInitState.RebuildRequested = .RebuildRequested) ∨
    (CodecInitState.Idle = .RebuildRequested ∧
      CodecInitEvent.configChange = .workerStart ∧
      CodecInitState.RebuildRequested = .RebuildInProgress) ∨
    (CodecInitState.Idle = .RebuildInProgress ∧
      CodecInitEvent.configChange = .publishSuccess ∧
      CodecInitState.RebuildRequested = .Idle) :=
  codec_initializer_states_and_cycle.2.2.2.2 .Idle .configChange
    .RebuildRequested rfl

/-- Claim C3: a rebuild whose HRIR load fails leaves the previously
published decode matrix in place unchanged and reports the error, and
falls back to the matrix built from the default HRIR set only when no
previous matrix exists. -/
theorem failed_rebuild_retains_matrix :
    (∀ (build : HrirSet → DecodeMatrix) (m : DecodeMatrix) (e : HrirLoadError),
      rebuildCodec build (some m) (.error e) = (some m, some e)) ∧
    (∀ (build : HrirSet → DecodeMatrix) (e : HrirLoadError),
      rebuildCodec build none (.error e) = (some (build defaultHrirSet), some e)) :=
  ⟨fun _ _ _ => rfl, fun _ _ => rfl⟩

/-- Claim C4: every new rebuild request increments the generation
counter; a finishing rebuild publishes only when its generation matches
the latest request's, and one superseded by a newer request is discarded
without touching the published matrix. -/
theorem stale_rebuild_discarded :
    (∀ s : RebuildSys, (newRequest s).latestGen = s.latestGen + 1) ∧
    (∀ (s : RebuildSys) (gen : Nat) (m : DecodeMatrix),
      gen ≠ s.latestGen → finishRebuild s gen m = s) ∧
    (∀ (s : RebuildSys) (gen : Nat) (m : DecodeMatrix),
      gen < s.latestGen → (finishRebuild s gen m).published = s.published) ∧
    (∀ (s : RebuildSys) (gen : Nat) (m : DecodeMatrix),
      (finishRebuild s gen m).published ≠ s.published → gen = s.latestGen) := by
  refine ⟨fun _ => rfl, ?_, ?_, ?_⟩
  · intro s gen m h
    simp [finishRebuild, h]
  · intro s gen m h
    simp [finishRebuild, Nat.ne_of_lt h]
  · intro s gen m h
    by_contra hne
    exact h (by simp [finishRebuild, hne])

/-- Witness for C4: a rebuild of generation 1 finishing after the
counter has moved to 2 leaves the published matrix untouched. -/
theorem stale_rebuild_discarded_witness :
    (finishRebuild ⟨2, none⟩ 1 zeroDecodeMatrix).published
      = (RebuildSys.mk 2 none).published :=
  stale_rebuild_discarded.2.2.1 ⟨2, none⟩ 1 zeroDecodeMatrix (by decide)

/-- Claim C7: when the estimated (smoothed) band energy is numerically
negligible, the analyzer publishes the diffuse-field reference
covariance, whose total energy strictly exceeds the negligibility
threshold — so the later normalization denominator is never near
zero. -/
theorem analyzer_diffuse_fallback (covAvgCoeff : ℚ) (prev inst : Cov2)
    (h : Matrix.trace (covAvgSmooth covAvgCoeff prev inst) ≤ energyEps) :
    analyzerCov (covAvgSmooth covAvgCoeff prev inst) = diffuseRefCov ∧
    energyEps < normDenom (covAvgSmooth covAvgCoeff prev inst) := by
  have hfb : analyzerCov (covAvgSmooth covAvgCoeff prev inst) = diffuseRefCov := by
    simp [analyzerCov, h]
  refine ⟨hfb, ?_⟩
  rw [normDenom, hfb]
  norm_num [diffuseRefCov, Matrix.trace_fin_two, energyEps]

/-- Witness for C7: with an all-zero smoothed covariance the analyzer
falls back to the diffuse-field reference, and the normalization
denominator is above the threshold. -/
theorem analyzer_diffuse_fallback_witness :
    analyzerCov (covAvgSmooth (1/2) 0 0) = diffuseRefCov ∧
    energyEps < normDenom (covAvgSmooth (1/2) 0 0) :=
  analyzer_diffuse_fallback (1/2) 0 0
    (by norm_num [covAvgSmooth, energyEps])

theorem regEps_pos : 0 < regEps := by norm_num [regEps]

theorem cholFactor_det_pos (C : CovR) : 0 < (cholFactor C).det := by
  have h1 : (0:ℝ) < max (C 0 0) regEps :=
    lt_of_lt_of_le regEps_pos (le_max_right _ _)
  have h2 : (0:ℝ) < max (C 1 1 - (C 1 0) ^ 2 / max (C 0 0) regEps) regEps :=
    lt_of_lt_of_le regEps_pos (le_max_right _ _)
  have hdet : (cholFactor C).det
      = Real.sqrt (max (C 0 0) regEps) *
        Real.sqrt (max (C 1 1 - (C 1 0) ^ 2 / max (C 0 0) regEps) regEps) := by
    simp [cholFactor, Matrix.det_fin_two_of]
  rw [hdet]
  exact mul_pos (Real.sqrt_pos.mpr h1) (Real.sqrt_pos.mpr h2)

theorem cholFactor_isUnit_det (C : CovR) : IsUnit (cholFactor C).det :=
  isUnit_iff_ne_zero.mpr (ne_of_gt (cholFactor_det_pos C))

theorem blendedTarget_fully_linear (Cx Ct : CovR) : blendedTarget 0 Cx Ct = Cx := by
  simp [blendedTarget]

/-- Claim C1: for every band and every sub-band input, with the
decode-balance control at its fully-linear extreme (0) and the coherence
estimate at its fully-diffuse extreme (0), the Covariance-Domain Mixer's
transform is the identity, so its output equals the raw linear-decode
output. -/
theorem mixer_identity_linear_diffuse (Cx Ddir Ddiff : CovR)
    (balance E : ℝ) (y : Fin 2 → ℝ) :
    mixMatrix decBalanceLinear Cx
      (targetCov coherenceDiffuse balance E Ddir Ddiff) = 1 ∧
    mixedSignal decBalanceLinear Cx
      (targetCov coherenceDiffuse balance E Ddir Ddiff) y = y := by
  have hM : mixMatrix decBalanceLinear Cx
      (targetCov coherenceDiffuse balance E Ddir Ddiff) = 1 := by
    rw [mixMatrix, show decBalanceLinear = 0 from rfl, blendedTarget_fully_linear]
    exact Matrix.mul_nonsing_inv _ (cholFactor_isUnit_det Cx)
  exact ⟨hM, by rw [mixedSignal, hM, Matrix.one_mulVec]⟩

theorem effAngle_neg (flip : Bool) (deg : ℝ) :
    effAngle flip (-deg) = -(effAngle flip deg) := by
  cases flip <;> simp [effAngle, DEG2RAD] <;> ring

theorem rotZ_neg_cancel (a : ℝ) (v : Fin 4 → ℝ) : rotZ (-a) (rotZ a v) = v := by
  have hs := Real.sin_sq_add_cos_sq a
  funext i
  fin_cases i <;>
    simp [rotZ, Real.cos_neg, Real.sin_neg]
  · linear_combination (v 1) * hs
  · linear_combination (v 3) * hs

theorem rotY_neg_cancel (a : ℝ) (v : Fin 4 → ℝ) : rotY (-a) (rotY a v) = v := by
  have hs := Real.sin_sq_add_cos_sq a
  funext i
  fin_cases i <;>
    simp [rotY, Real.cos_neg, Real.sin_neg]
  · linear_combination (v 2) * hs
  · linear_combination (v 3) * hs

theorem rotX_neg_cancel (a : ℝ) (v : Fin 4 → ℝ) : rotX (-a) (rotX a v) = v := by
  have hs := Real.sin_sq_add_cos_sq a
  funext i
  fin_cases i <;>
    simp [rotX, Real.cos_neg, Real.sin_neg]
  · linear_combination (v 1) * hs
  · linear_combination (v 2) * hs

/-- Claim C6: for every SH sub-band sample and every (yaw, pitch, roll)
rotation with its sign-flip flags and rotation-order flag, applying the
Rotator and then the Rotator configured with the exact inverse rotation
(negated angles, opposite composition order, same flags) returns the
sample to the original, exactly in real arithmetic (hence within
floating-point tolerance). -/
theorem rotation_round_trip (yaw pitch roll : ℝ)
    (bFlipYaw bFlipPitch bFlipRoll : Bool) (useRollPitchYawFlag : Bool)
    (v : Fin 4 → ℝ) :
    rotator (-yaw) (-pitch) (-roll) bFlipYaw bFlipPitch bFlipRoll
      (!useRollPitchYawFlag)
      (rotator yaw pitch roll bFlipYaw bFlipPitch bFlipRoll
        useRollPitchYawFlag v) = v := by
  cases useRollPitchYawFlag <;>
    simp only [rotator, Bool.not_false, Bool.not_true, if_true, if_false,
      Bool.false_eq_true, Bool.true_eq_false, effAngle_neg, ite_true, ite_false]
  · rw [rotX_neg_cancel, rotY_neg_cancel, rotZ_neg_cancel]
  · rw [rotZ_neg_cancel, rotY_neg_cancel, rotX_neg_cancel]

theorem cholFactor_mul_transpose (C : CovR) (h : CholExact C) :
    cholFactor C * (cholFactor C).transpose = C := by
  obtain ⟨hsym, h00, h11⟩ := h
  have ha : max (C 0 0) regEps = C 0 0 := max_eq_left h00
  have h00pos : (0:ℝ) < C 0 0 := lt_of_lt_of_le regEps_pos h00
  have hd : max (C 1 1 - (C 1 0) ^ 2 / max (C 0 0) regEps) regEps
      = C 1 1 - (C 1 0) ^ 2 / C 0 0 := by
    rw [ha]
    exact max_eq_left h11
  have hsq : Real.sqrt (C 0 0) * Real.sqrt (C 0 0) = C 0 0 :=
    Real.mul_self_sqrt h00pos.le
  have hs0 : Real.sqrt (C 0 0) ≠ 0 := ne_of_gt (Real.sqrt_pos.mpr h00pos)
  have hdnn : 0 ≤ C 1 1 - (C 1 0) ^ 2 / C 0 0 := le_trans regEps_pos.le h11
  have hds : Real.sqrt (C 1 1 - (C 1 0) ^ 2 / C 0 0) *
      Real.sqrt (C 1 1 - (C 1 0) ^ 2 / C 0 0)
      = C 1 1 - (C 1 0) ^ 2 / C 0 0 := Real.mul_self_sqrt hdnn
  have hc0 : C 0 0 ≠ 0 := ne_of_gt h00pos
  have hd2 : max (C 1 1 - (C 1 0) ^ 2 / C 0 0) regEps
      = C 1 1 - (C 1 0) ^ 2 / C 0 0 := max_eq_left h11
  ext i j
  fin_cases i <;> fin_cases j
  · simp [cholFactor, ha, hd2, Matrix.mul_apply, Fin.sum_univ_two,
      Matrix.transpose_apply, hsq]
  · simp only [cholFactor, ha, hd2, Matrix.mul_apply, Fin.sum_univ_two,
      Matrix.transpose_apply]
    simp [hsym]
    rw [mul_comm, div_mul_cancel₀ _ hs0]
  · simp only [cholFactor, ha, hd2, Matrix.mul_apply, Fin.sum_univ_two,
      Matrix.transpose_apply]
    simp
    rw [div_mul_cancel₀ _ hs0]
  · simp only [cholFactor, ha, hd2, Matrix.mul_apply, Fin.sum_univ_two,
      Matrix.transpose_apply]
    simp
    rw [div_mul_div_comm, hsq, hds]
    field_simp
    ring

theorem mixerOutCov_eq_blendedTarget (d : ℝ) (Cx Ct : CovR)
    (hx : CholExact Cx) (hy : CholExact (blendedTarget d Cx Ct)) :
    mixerOutCov d Cx Ct = blendedTarget d Cx Ct := by
  rw [mixerOutCov, mixMatrix]
  set Kx := cholFactor Cx
  set Ky := cholFactor (blendedTarget d Cx Ct)
  have hKx : Kx * Kx.transpose = Cx := cholFactor_mul_transpose Cx hx
  have hKy : Ky * Ky.transpose = blendedTarget d Cx Ct :=
    cholFactor_mul_transpose _ hy
  have hdet : IsUnit Kx.det := cholFactor_isUnit_det Cx
  have h1 : Kx⁻¹ * Kx = 1 := Matrix.nonsing_inv_mul _ hdet
  have h2 : Kx.transpose * (Kx⁻¹).transpose = 1 := by
    rw [← Matrix.transpose_mul, h1, Matrix.transpose_one]
  rw [Matrix.transpose_mul]
  calc Ky * Kx⁻¹ * Cx * ((Kx⁻¹).transpose * Ky.transpose)
      = Ky * Kx⁻¹ * (Kx * Kx.transpose) * ((Kx⁻¹).transpose * Ky.transpose) := by
        rw [hKx]
    _ = Ky * (Kx⁻¹ * Kx) * (Kx.transpose * (Kx⁻¹).transpose) * Ky.transpose := by
        simp only [Matrix.mul_assoc]
    _ = Ky * Ky.transpose := by
        rw [h1, h2, Matrix.mul_one, Matrix.mul_one]
    _ = blendedTarget d Cx Ct := hKy

theorem postGain_pos : 0 < postGain := by
  rw [postGain]
  exact Real.rpow_pos_of_pos (by norm_num) _

theorem postGain_le_one : postGain ≤ 1 := by
  rw [postGain]
  exact Real.rpow_le_one_of_one_le_of_nonpos (by norm_num)
    (by norm_num [POST_GAIN_DB])

theorem trace_targetCov (coherence balance E : ℝ) (Ddir Ddiff : CovR)
    (hdir : Matrix.trace Ddir = 1) (hdiff : Matrix.trace Ddiff = 1) :
    Matrix.trace (targetCov coherence balance E Ddir Ddiff)
      = (difWeight balance coherence + dirWeight balance coherence) * E := by
  simp [targetCov, Matrix.trace_add, Matrix.trace_smul, smul_eq_mul, hdir, hdiff]
  ring

theorem blend_weights_bounds (balance coherence : ℝ)
    (hba : 0 ≤ balance) (hba2 : balance ≤ 2)
    (hco : 0 ≤ coherence) (hco1 : coherence ≤ 1) :
    0 ≤ difWeight balance coherence ∧ 0 ≤ dirWeight balance coherence ∧
    difWeight balance coherence + dirWeight balance coherence ≤ 1 := by
  have h1 : min balance 1 ≤ 1 := min_le_right _ _
  have h2 : min (2 - balance) 1 ≤ 1 := min_le_right _ _
  have h3 : 0 ≤ min balance 1 := le_min hba zero_le_one
  have h4 : 0 ≤ min (2 - balance) 1 := le_min (by linarith) zero_le_one
  have hg : 0 ≤ 1 - coherence := by linarith
  have ha : difWeight balance coherence ≤ 1 - coherence := by
    rw [difWeight]
    exact mul_le_of_le_one_left hg h2
  have hb : dirWeight balance coherence ≤ coherence := by
    rw [dirWeight]
    exact mul_le_of_le_one_left hco h1
  refine ⟨mul_nonneg h4 hg, mul_nonneg h3 hco, by linarith⟩

theorem cholExact_trace_nonneg (C : CovR) (h : CholExact C) :
    0 ≤ Matrix.trace C := by
  obtain ⟨-, h00, h11⟩ := h
  have h00pos : (0:ℝ) < C 0 0 := lt_of_lt_of_le regEps_pos h00
  have hq : 0 ≤ (C 1 0) ^ 2 / C 0 0 := div_nonneg (sq_nonneg _) h00pos.le
  have he := regEps_pos
  rw [Matrix.trace_fin_two]
  linarith

theorem vecEnergy_nonneg {n : Nat} (v : Fin n → ℝ) : 0 ≤ vecEnergy v :=
  Finset.sum_nonneg fun i _ => sq_nonneg (v i)

theorem impulseSH_energy (k : Fin 4) : vecEnergy (impulseSH k) = 1 := by
  rw [vecEnergy, Finset.sum_eq_single k]
  · simp [impulseSH]
  · intro b _ hb
    simp [impulseSH, hb]
  · intro h
    exact absurd (Finset.mem_univ k) h

theorem trace_vecMulVec_eq (y : Fin 2 → ℝ) :
    Matrix.trace (Matrix.vecMulVec y y) = vecEnergy y := by
  simp only [Matrix.trace_fin_two, Matrix.vecMulVec_apply, vecEnergy,
    Fin.sum_univ_two]
  ring

theorem mulVec_energy_le (M : CovR) (z : Fin 2 → ℝ) :
    vecEnergy (M.mulVec z)
      ≤ (M 0 0 ^ 2 + M 0 1 ^ 2 + M 1 0 ^ 2 + M 1 1 ^ 2) * vecEnergy z := by
  simp only [vecEnergy, Fin.sum_univ_two, Matrix.mulVec, Matrix.dotProduct]
  nlinarith [sq_nonneg (M 0 0 * z 1 - M 0 1 * z 0),
    sq_nonneg (M 1 0 * z 1 - M 1 1 * z 0)]

theorem psd2_outer (y : Fin 2 → ℝ) : PSD2 (Matrix.vecMulVec y y) := by
  refine ⟨by simp [Matrix.vecMulVec_apply, mul_comm], ?_, ?_, ?_⟩
  · simp only [Matrix.vecMulVec_apply]
    exact mul_self_nonneg _
  · simp only [Matrix.vecMulVec_apply]
    exact mul_self_nonneg _
  · simp only [Matrix.vecMulVec_apply]
    exact le_of_eq (by ring)

theorem psd2_smul (c : ℝ) (hc : 0 ≤ c) (C : CovR) (h : PSD2 C) : PSD2 (c • C) := by
  obtain ⟨hs, h0, h1, hd⟩ := h
  refine ⟨by simp [hs], ?_, ?_, ?_⟩
  · simp only [Matrix.smul_apply, smul_eq_mul]
    exact mul_nonneg hc h0
  · simp only [Matrix.smul_apply, smul_eq_mul]
    exact mul_nonneg hc h1
  · simp only [Matrix.smul_apply, smul_eq_mul]
    nlinarith [mul_le_mul_of_nonneg_left hd (mul_nonneg hc hc)]

theorem psd2_add (A B : CovR) (hA : PSD2 A) (hB : PSD2 B) : PSD2 (A + B) := by
  obtain ⟨as, a0, a1, ad⟩ := hA
  obtain ⟨bs, b0, b1, bd⟩ := hB
  refine ⟨by simp [as, bs], by simp; linarith, by simp; linarith, ?_⟩
  simp only [Matrix.add_apply]
  have hcross : 2 * (A 1 0 * B 1 0) ≤ A 0 0 * B 1 1 + B 0 0 * A 1 1 := by
    rcases le_or_lt (A 1 0 * B 1 0) 0 with hab | hab
    · nlinarith [mul_nonneg a0 b1, mul_nonneg b0 a1]
    · have h1 : (A 1 0 * B 1 0) ^ 2 ≤ (A 0 0 * B 1 1) * (B 0 0 * A 1 1) := by
        nlinarith [mul_le_mul ad bd (sq_nonneg (B 1 0)) (mul_nonneg a0 a1)]
      nlinarith [sq_nonneg (A 0 0 * B 1 1 - B 0 0 * A 1 1),
        mul_nonneg a0 b1, mul_nonneg b0 a1, hab, h1]
  nlinarith [ad, bd, hcross]

theorem whiten_energy_le_one (y : Fin 2 → ℝ) :
    vecEnergy ((cholFactor (Matrix.vecMulVec y y))⁻¹.mulVec y) ≤ 1 := by
  set C := Matrix.vecMulVec y y with hCdef
  set z := (cholFactor C)⁻¹.mulVec y with hzdef
  have hKz : (cholFactor C).mulVec z = y := by
    rw [hzdef, Matrix.mulVec_mulVec,
      Matrix.mul_nonsing_inv _ (cholFactor_isUnit_det C), Matrix.one_mulVec]
  have hC00 : C 0 0 = y 0 * y 0 := by rw [hCdef]; simp [Matrix.vecMulVec_apply]
  have hC10 : C 1 0 = y 1 * y 0 := by rw [hCdef]; simp [Matrix.vecMulVec_apply]
  have hC11 : C 1 1 = y 1 * y 1 := by rw [hCdef]; simp [Matrix.vecMulVec_apply]
  have ha0 : (0:ℝ) < max (C 0 0) regEps :=
    lt_of_lt_of_le regEps_pos (le_max_right _ _)
  have hd0 : (0:ℝ) < max (C 1 1 - (C 1 0) ^ 2 / max (C 0 0) regEps) regEps :=
    lt_of_lt_of_le regEps_pos (le_max_right _ _)
  have hsa : Real.sqrt (max (C 0 0) regEps) * Real.sqrt (max (C 0 0) regEps)
      = max (C 0 0) regEps := Real.mul_self_sqrt ha0.le
  have hsa0 : (0:ℝ) < Real.sqrt (max (C 0 0) regEps) := Real.sqrt_pos.mpr ha0
  have hsd : Real.sqrt (max (C 1 1 - (C 1 0) ^ 2 / max (C 0 0) regEps) regEps) *
      Real.sqrt (max (C 1 1 - (C 1 0) ^ 2 / max (C 0 0) regEps) regEps)
      = max (C 1 1 - (C 1 0) ^ 2 / max (C 0 0) regEps) regEps :=
    Real.mul_self_sqrt hd0.le
  have e0 : Real.sqrt (max (C 0 0) regEps) * z 0 = y 0 := by
    have h := congrFun hKz 0
    simpa [cholFactor, Matrix.mulVec, Matrix.dotProduct, Fin.sum_univ_two]
      using h
  have e1 : C 1 0 / Real.sqrt (max (C 0 0) regEps) * z 0 +
      Real.sqrt (max (C 1 1 - (C 1 0) ^ 2 / max (C 0 0) regEps) regEps) * z 1
      = y 1 := by
    have h := congrFun hKz 1
    simpa [cholFactor, Matrix.mulVec, Matrix.dotProduct, Fin.sum_univ_two]
      using h
  have haz : max (C 0 0) regEps * (z 0 * z 0) = y 0 * y 0 := by
    rw [← e0]
    linear_combination (-(z 0 * z 0)) * hsa
  have hz0sq : z 0 * z 0 ≤ 1 := by
    have h : C 0 0 ≤ max (C 0 0) regEps := le_max_left _ _
    rw [hC00] at h
    have h2 : max (C 0 0) regEps * (z 0 * z 0) ≤ max (C 0 0) regEps * 1 := by
      rw [haz, mul_one]
      exact h
    exact le_of_mul_le_mul_left h2 ha0
  have hq : C 1 0 / Real.sqrt (max (C 0 0) regEps) * z 0 = y 1 * (z 0 * z 0) := by
    rw [hC10, ← e0]
    field_simp
    ring
  have e2 : Real.sqrt (max (C 1 1 - (C 1 0) ^ 2 / max (C 0 0) regEps) regEps) * z 1
      = y 1 * (1 - z 0 * z 0) := by
    rw [hq] at e1
    linear_combination e1
  have hdge : y 1 * y 1 * (1 - z 0 * z 0)
      ≤ max (C 1 1 - (C 1 0) ^ 2 / max (C 0 0) regEps) regEps := by
    have hq2 : (C 1 0) ^ 2 / max (C 0 0) regEps = y 1 * y 1 * (z 0 * z 0) := by
      rw [hC10, div_eq_iff (ne_of_gt ha0)]
      calc (y 1 * y 0) ^ 2 = y 1 * y 1 * (y 0 * y 0) := by ring
        _ = y 1 * y 1 * (max (C 0 0) regEps * (z 0 * z 0)) := by rw [haz]
        _ = y 1 * y 1 * (z 0 * z 0) * max (C 0 0) regEps := by ring
    have hls : y 1 * y 1 * (1 - z 0 * z 0)
        = C 1 1 - (C 1 0) ^ 2 / max (C 0 0) regEps := by
      rw [hC11, hq2]
      ring
    rw [hls]
    exact le_max_left _ _
  have hz1sq : z 1 * z 1 ≤ 1 - z 0 * z 0 := by
    have hnn : 0 ≤ 1 - z 0 * z 0 := by linarith
    have hsq2 : max (C 1 1 - (C 1 0) ^ 2 / max (C 0 0) regEps) regEps * (z 1 * z 1)
        = (y 1 * y 1 * (1 - z 0 * z 0)) * (1 - z 0 * z 0) := by
      have he2sq : (Real.sqrt (max (C 1 1 - (C 1 0) ^ 2 / max (C 0 0) regEps) regEps)
            * z 1) *
          (Real.sqrt (max (C 1 1 - (C 1 0) ^ 2 / max (C 0 0) regEps) regEps) * z 1)
          = (y 1 * (1 - z 0 * z 0)) * (y 1 * (1 - z 0 * z 0)) := by rw [e2]
      linear_combination he2sq - (z 1 * z 1) * hsd
    have h3 : max (C 1 1 - (C 1 0) ^ 2 / max (C 0 0) regEps) regEps * (z 1 * z 1)
        ≤ max (C 1 1 - (C 1 0) ^ 2 / max (C 0 0) regEps) regEps * (1 - z 0 * z 0) := by
      rw [hsq2]
      exact mul_le_mul_of_nonneg_right hdge hnn
    exact le_of_mul_le_mul_left h3 hd0
  rw [vecEnergy, Fin.sum_univ_two]
  nlinarith [hz0sq, hz1sq]

theorem cholFactor_frobenius_le (C : CovR) (h : PSD2 C) :
    cholFactor C 0 0 ^ 2 + cholFactor C 0 1 ^ 2 +
    cholFactor C 1 0 ^ 2 + cholFactor C 1 1 ^ 2
      ≤ 2 * Matrix.trace C + 2 * regEps := by
  obtain ⟨hsym, h00, h11, hdet⟩ := h
  have ha0 : (0:ℝ) < max (C 0 0) regEps :=
    lt_of_lt_of_le regEps_pos (le_max_right _ _)
  have hd0 : (0:ℝ) < max (C 1 1 - (C 1 0) ^ 2 / max (C 0 0) regEps) regEps :=
    lt_of_lt_of_le regEps_pos (le_max_right _ _)
  have hE00 : cholFactor C 0 0 = Real.sqrt (max (C 0 0) regEps) := by
    simp [cholFactor]
  have hE01 : cholFactor C 0 1 = 0 := by simp [cholFactor]
  have hE10 : cholFactor C 1 0 = C 1 0 / Real.sqrt (max (C 0 0) regEps) := by
    simp [cholFactor]
  have hE11 : cholFactor C 1 1
      = Real.sqrt (max (C 1 1 - (C 1 0) ^ 2 / max (C 0 0) regEps) regEps) := by
    simp [cholFactor]
  rw [hE00, hE01, hE10, hE11, Matrix.trace_fin_two]
  rw [Real.sq_sqrt ha0.le, Real.sq_sqrt hd0.le, div_pow, Real.sq_sqrt ha0.le]
  have hq0 : 0 ≤ (C 1 0) ^ 2 / max (C 0 0) regEps :=
    div_nonneg (sq_nonneg _) ha0.le
  have haU : max (C 0 0) regEps ≤ C 0 0 + regEps :=
    max_le (by linarith [regEps_pos]) (by linarith)
  have hdU : max (C 1 1 - (C 1 0) ^ 2 / max (C 0 0) regEps) regEps
      ≤ C 1 1 + regEps := max_le (by linarith [regEps_pos]) (by linarith)
  have hqB : (C 1 0) ^ 2 / max (C 0 0) regEps ≤ C 1 1 := by
    rw [div_le_iff₀ ha0]
    calc (C 1 0) ^ 2 ≤ C 0 0 * C 1 1 := hdet
      _ ≤ max (C 0 0) regEps * C 1 1 :=
          mul_le_mul_of_nonneg_right (le_max_left _ _) h11
      _ = C 1 1 * max (C 0 0) regEps := by ring
  linarith

theorem postGain_sq_le_quarter : postGain ^ (2:ℕ) ≤ 1/4 := by
  have hrw : postGain ^ (2:ℕ) = (10:ℝ) ^ (-(9:ℝ)/10) := by
    simp only [postGain, POST_GAIN_DB]
    rw [← Real.rpow_natCast ((10:ℝ) ^ ((-9:ℝ)/20)) 2,
      ← Real.rpow_mul (by norm_num)]
    norm_num
  have h2 : (4:ℝ) ≤ (10:ℝ) ^ ((9:ℝ)/10) := by
    have h3 : ((10:ℝ) ^ ((9:ℝ)/10)) ^ (10:ℕ) = (10:ℝ) ^ (9:ℕ) := by
      rw [← Real.rpow_natCast ((10:ℝ) ^ ((9:ℝ)/10)) 10,
        ← Real.rpow_mul (by norm_num), ← Real.rpow_natCast (10:ℝ) 9]
      norm_num
    have h4 : (4:ℝ) ^ (10:ℕ) ≤ ((10:ℝ) ^ ((9:ℝ)/10)) ^ (10:ℕ) := by
      rw [h3]
      norm_num
    exact le_of_pow_le_pow_left₀ (by norm_num)
      (Real.rpow_nonneg (by norm_num) _) h4
  rw [hrw, show (-(9:ℝ)/10) = -((9:ℝ)/10) by norm_num,
    Real.rpow_neg (by norm_num), show (1:ℝ)/4 = ((4:ℝ))⁻¹ by norm_num]
  exact inv_anti₀ (by norm_num) h2

/-- Claim C8: for an impulse input on one SH channel, the mixed two-ear
output is finite, with total energy after the −9 dB global post-gain at
most the input impulse energy — the covariance-matching step never
introduces unbounded gain.  The decode-output covariance here is the
impulse's own rank-one outer product, which is singular, so the bound
holds through the mixer's regularisation rather than assuming it away.
Side conditions: the linear decode does not amplify, the blend controls
and coherence are in their documented ranges, and the target shapes are
unit-energy covariance matrices. -/
theorem impulse_output_energy_bounded
    (A : Matrix (Fin 2) (Fin 4) ℝ) (k : Fin 4)
    (coherence balance decBalance : ℝ) (Ddir Ddiff : CovR)
    (hdec : vecEnergy (A.mulVec (impulseSH k)) ≤ vecEnergy (impulseSH k))
    (hco : 0 ≤ coherence) (hco1 : coherence ≤ 1)
    (hba : 0 ≤ balance) (hba2 : balance ≤ 2)
    (hd0 : 0 ≤ decBalance) (hd1 : decBalance ≤ 1)
    (hdir : Matrix.trace Ddir = 1) (hdiff : Matrix.trace Ddiff = 1)
    (hPdir : PSD2 Ddir) (hPdiff : PSD2 Ddiff) :
    impulsePipelineEnergy A k coherence balance decBalance Ddir Ddiff
      ≤ vecEnergy (impulseSH k) := by
  set y := A.mulVec (impulseSH k) with hy
  set Cx := impulseDecCov A k with hCx
  set Ct := targetCov coherence balance (Matrix.trace Cx) Ddir Ddiff with hCt
  have hCxy : Cx = Matrix.vecMulVec y y := by
    rw [hCx, hy]
    rfl
  have hE : Matrix.trace Cx = vecEnergy y := by rw [hCxy, trace_vecMulVec_eq]
  have hE0 : 0 ≤ Matrix.trace Cx := by
    rw [hE]
    exact vecEnergy_nonneg y
  have hE1 : Matrix.trace Cx ≤ 1 := by
    rw [hE]
    calc vecEnergy y ≤ vecEnergy (impulseSH k) := hdec
      _ = 1 := impulseSH_energy k
  obtain ⟨hw1, hw2, hw3⟩ :=
    blend_weights_bounds balance coherence hba hba2 hco hco1
  have htC : Matrix.trace Ct
      = (difWeight balance coherence + dirWeight balance coherence) *
        Matrix.trace Cx := by
    rw [hCt]
    exact trace_targetCov coherence balance (Matrix.trace Cx) Ddir Ddiff hdir hdiff
  have htC_le : Matrix.trace Ct ≤ Matrix.trace Cx := by
    rw [htC]
    exact mul_le_of_le_one_left hE0 hw3
  have htC_0 : 0 ≤ Matrix.trace Ct := by
    rw [htC]
    exact mul_nonneg (by linarith) hE0
  have hblend : Matrix.trace (blendedTarget decBalance Cx Ct)
      = (1 - decBalance) * Matrix.trace Cx + decBalance * Matrix.trace Ct := by
    simp [blendedTarget, Matrix.trace_add, Matrix.trace_smul, smul_eq_mul]
  have hblend_le : Matrix.trace (blendedTarget decBalance Cx Ct)
      ≤ Matrix.trace Cx := by
    rw [hblend]
    nlinarith [mul_nonneg hd0 (sub_nonneg.mpr htC_le)]
  have hPCx : PSD2 Cx := by
    rw [hCxy]
    exact psd2_outer y
  have hPCt : PSD2 Ct := by
    rw [hCt, targetCov]
    exact psd2_add _ _
      (psd2_smul _ (mul_nonneg hw1 hE0) Ddiff hPdiff)
      (psd2_smul _ (mul_nonneg hw2 hE0) Ddir hPdir)
  have hPCy : PSD2 (blendedTarget decBalance Cx Ct) := by
    rw [blendedTarget]
    exact psd2_add _ _
      (psd2_smul _ (by linarith) Cx hPCx)
      (psd2_smul _ hd0 Ct hPCt)
  set Ky := cholFactor (blendedTarget decBalance Cx Ct) with hKy
  have hsplit : mixedSignal decBalance Cx Ct y
      = Ky.mulVec ((cholFactor Cx)⁻¹.mulVec y) := by
    rw [mixedSignal, mixMatrix, ← Matrix.mulVec_mulVec, hKy]
  have hz1 : vecEnergy ((cholFactor Cx)⁻¹.mulVec y) ≤ 1 := by
    rw [hCxy]
    exact whiten_energy_le_one y
  have hFz := mulVec_energy_le Ky ((cholFactor Cx)⁻¹.mulVec y)
  have hFnn : 0 ≤ Ky 0 0 ^ 2 + Ky 0 1 ^ 2 + Ky 1 0 ^ 2 + Ky 1 1 ^ 2 := by positivity
  have hFle : Ky 0 0 ^ 2 + Ky 0 1 ^ 2 + Ky 1 0 ^ 2 + Ky 1 1 ^ 2
      ≤ 2 * Matrix.trace (blendedTarget decBalance Cx Ct) + 2 * regEps := by
    rw [hKy]
    exact cholFactor_frobenius_le _ hPCy
  have hEnergy : vecEnergy (mixedSignal decBalance Cx Ct y)
      ≤ 2 * Matrix.trace Cx + 2 * regEps := by
    rw [hsplit]
    calc vecEnergy (Ky.mulVec ((cholFactor Cx)⁻¹.mulVec y))
        ≤ (Ky 0 0 ^ 2 + Ky 0 1 ^ 2 + Ky 1 0 ^ 2 + Ky 1 1 ^ 2) *
          vecEnergy ((cholFactor Cx)⁻¹.mulVec y) := hFz
      _ ≤ (Ky 0 0 ^ 2 + Ky 0 1 ^ 2 + Ky 1 0 ^ 2 + Ky 1 1 ^ 2) * 1 :=
          mul_le_mul_of_nonneg_left hz1 hFnn
      _ = Ky 0 0 ^ 2 + Ky 0 1 ^ 2 + Ky 1 0 ^ 2 + Ky 1 1 ^ 2 := mul_one _
      _ ≤ 2 * Matrix.trace (blendedTarget decBalance Cx Ct) + 2 * regEps := hFle
      _ ≤ 2 * Matrix.trace Cx + 2 * regEps := by linarith
  have hven : vecEnergy (mixedSignal decBalance Cx Ct y) ≤ 2 + 2 * regEps := by
    linarith
  have hvnn : 0 ≤ vecEnergy (mixedSignal decBalance Cx Ct y) := vecEnergy_nonneg _
  have hfinal : postGain ^ (2:ℕ) * vecEnergy (mixedSignal decBalance Cx Ct y)
      ≤ 1 := by
    calc postGain ^ (2:ℕ) * vecEnergy (mixedSignal decBalance Cx Ct y)
        ≤ (1/4) * (2 + 2 * regEps) :=
          mul_le_mul postGain_sq_le_quarter hven hvnn (by norm_num)
      _ ≤ 1 := by norm_num [regEps]
  simp only [impulsePipelineEnergy, impulseSH_energy]
  rw [← hy, ← hCx, ← hCt]
  exact hfinal

/-- Witness for C8: a concrete impulse on SH channel 0 with a
non-amplifying decode matrix, mid-range blend settings and unit-energy
PSD target shapes; the bounded-energy conclusion follows by applying the
claim's theorem, with the rank-one decode covariance built in. -/
theorem impulse_output_energy_bounded_witness :
    impulsePipelineEnergy !![1/2, 0, 0, 0; 1/2, 0, 0, 0] 0 (1/2) 1 (1/2)
      !![1, 0; 0, 0] !![1/2, 0; 0, 1/2] ≤ vecEnergy (impulseSH 0) :=
  impulse_output_energy_bounded !![1/2, 0, 0, 0; 1/2, 0, 0, 0] 0 (1/2) 1 (1/2)
    !![1, 0; 0, 0] !![1/2, 0; 0, 1/2]
    (by norm_num [vecEnergy, impulseSH, Matrix.mulVec, Matrix.dotProduct,
      Fin.sum_univ_four, Fin.sum_univ_two])
    (by norm_num) (by norm_num) (by norm_num) (by norm_num)
    (by norm_num) (by norm_num)
    (by norm_num [Matrix.trace_fin_two])
    (by norm_num [Matrix.trace_fin_two])
    (by norm_num [PSD2])
    (by norm_num [PSD2])

end AmbiCropac
